import Mathlib

/-!
Verification of the Live Auction System's core bid-placement and
auction-lifecycle logic, shallowly embedded from the JavaScript source
(`server/controllers/bidController.js`, `server/controllers/auctionController.js`,
`server/models/Auction.js`, `server/models/Bid.js`).

Identifiers are natural numbers, instants are integers (milliseconds since
epoch, mirroring `Date.getTime()`), and monetary amounts are rationals
(JavaScript numbers used as exact decimals in this code base).  A timestamp
that failed to parse (`isNaN(d.getTime())` in the source) is modelled as
`none`.
-/

namespace LiveAuction

/-- Milliseconds in one hour, the `oneHour` constant of the status virtual. -/
def oneHourMs : Int := 60 * 60 * 1000

/-- The derived lifecycle status of an auction (`AuctionSchema.virtual('status')`). -/
inductive Status where
  | upcoming
  | active
  | endingSoon
  | ended
  | invalidDates
deriving DecidableEq, Repr

/-- Embeds `AuctionSchema.virtual('status').get` from `models/Auction.js`:
a pure function of the read time and the two timestamps.  `none` stands for a
timestamp whose parse produced `NaN`. -/
def auctionStatus (now : Int) (startTime endTime : Option Int) : Status :=
  match startTime, endTime with
  | some s, some e =>
    if now < s then .upcoming
    else if now ≥ s ∧ now < e then
      if e - now < oneHourMs then .endingSoon else .active
    else .ended
  | _, _ => .invalidDates

/-- A document attachment (`DocumentSchema` in `models/Auction.js`). -/
structure Document where
  name : String
  url : String
  type : String
deriving DecidableEq, Repr

/-- An auction record (`AuctionSchema` in `models/Auction.js`). -/
structure Auction where
  id : Nat
  title : String
  description : String
  imageUrl : Option String
  images : List String
  startingBid : ℚ
  currentBid : ℚ
  highestBidder : Option Nat
  bidCount : Nat
  views : Nat
  likedBy : List Nat
  seller : Nat
  startTime : Option Int
  endTime : Option Int
  documents : List Document
  category : String
  location : String
deriving DecidableEq, Repr

/-- A bid record (`BidSchema` in `models/Bid.js`); `createdAt` is set by the
`timestamps: true` option at save time. -/
structure Bid where
  auction : Nat
  bidder : Nat
  amount : ℚ
  createdAt : Int
deriving DecidableEq, Repr

/-- The persisted state: the auctions and bids collections. -/
structure DB where
  auctions : List Auction
  bids : List Bid
deriving DecidableEq, Repr

/-- `Auction.findById`: the document with the given id, if any. -/
def findAuction (db : DB) (aid : Nat) : Option Auction :=
  db.auctions.find? (fun a => a.id = aid)

/-- The status of an auction document as the virtual getter computes it. -/
def statusOf (now : Int) (a : Auction) : Status :=
  auctionStatus now a.startTime a.endTime

/-- The distinct rejection reasons of `placeBid` in
`controllers/bidController.js`.  `invalidAmount` is the pre-transaction
`typeof amount !== "number" || amount <= 0` check; the rest are the in-order
precondition failures, each carrying the value the controller discloses in the
response body. -/
inductive BidError where
  | invalidAmount
  | notFound
  | forbidden
  | invalidState (status : Status)
  | bidTooLowCurrent (currentBid : ℚ)
  | bidTooLowStarting (startingBid : ℚ)
  | serverError
deriving DecidableEq, Repr

/-- The auction summary returned on a successful bid (`res.status(201)` body). -/
structure AuctionSummary where
  id : Nat
  currentBid : ℚ
  highestBidder : Option Nat
  bidCount : Nat
deriving DecidableEq, Repr

/-- The `$set`/`$inc` update `placeBid` applies via `findByIdAndUpdate`. -/
def applyBidUpdate (amount : ℚ) (bidderId : Nat) (a : Auction) : Auction :=
  { a with currentBid := amount, highestBidder := some bidderId,
           bidCount := a.bidCount + 1 }

/-- The bid document `placeBid` constructs (`new Bid({auction, bidder, amount})`,
with `createdAt` filled in at save time). -/
def newBidRecord (now : Int) (aid : Nat) (bidderId : Nat)
    (amount : ℚ) : Bid :=
  { auction := aid, bidder := bidderId, amount := amount, createdAt := now }

/-- The committed effect of a successful bid transaction: the auction document
with the given id receives the `$set`/`$inc` update and the new bid document is
inserted. -/
def commitBid (db : DB) (now : Int) (aid : Nat) (bidderId : Nat)
    (amount : ℚ) : DB :=
  { auctions := db.auctions.map
      (fun a => if a.id = aid then applyBidUpdate amount bidderId a else a),
    bids := db.bids ++ [newBidRecord now aid bidderId amount] }

/-- Embeds `exports.placeBid` from `controllers/bidController.js` (happy path
and precondition rejections; every rejection aborts the transaction, so the
database is returned unchanged exactly when an error is returned).
Checks, in source order: amount validity, auction existence, seller ≠ bidder,
derived status active/ending-soon, `amount <= currentBid`, and the first-bid
`bidCount === 0 && amount < startingBid` check; then updates the auction and
inserts the new bid inside the transaction. -/
def placeBid (db : DB) (now : Int) (aid : Nat) (bidderId : Nat)
    (amount : ℚ) : Except BidError (DB × Bid × AuctionSummary) :=
  if amount ≤ 0 then .error .invalidAmount
  else
    match findAuction db aid with
    | none => .error .notFound
    | some auction =>
      if auction.seller = bidderId then .error .forbidden
      else
        if statusOf now auction ≠ Status.active ∧
            statusOf now auction ≠ Status.endingSoon then
          .error (.invalidState (statusOf now auction))
        else if amount ≤ auction.currentBid then
          .error (.bidTooLowCurrent auction.currentBid)
        else if auction.bidCount = 0 ∧ amount < auction.startingBid then
          .error (.bidTooLowStarting auction.startingBid)
        else
          .ok (commitBid db now aid bidderId amount,
               newBidRecord now aid bidderId amount,
               { id := auction.id, currentBid := amount,
                 highestBidder := some bidderId,
                 bidCount := auction.bidCount + 1 })

/-- The bid transaction with explicit write-failure oracles, modelling the
`session`/`abortTransaction` discipline of `placeBid`: the two session writes
(`Auction.findByIdAndUpdate` and `newBid.save`) are buffered by the transaction
and only become visible at `commitTransaction`; if either write throws
(`failUpdate`/`failInsert`), control reaches the `catch` block, which calls
`abortTransaction`, discarding every buffered write, and responds with a server
error. -/
def placeBidTx (failUpdate failInsert : Bool) (db : DB) (now : Int)
    (aid : Nat) (bidderId : Nat) (amount : ℚ) :
    DB × Except BidError (Bid × AuctionSummary) :=
  if amount ≤ 0 then (db, .error .invalidAmount)
  else
    match findAuction db aid with
    | none => (db, .error .notFound)
    | some auction =>
      if auction.seller = bidderId then (db, .error .forbidden)
      else
        if statusOf now auction ≠ Status.active ∧
            statusOf now auction ≠ Status.endingSoon then
          (db, .error (.invalidState (statusOf now auction)))
        else if amount ≤ auction.currentBid then
          (db, .error (.bidTooLowCurrent auction.currentBid))
        else if auction.bidCount = 0 ∧ amount < auction.startingBid then
          (db, .error (.bidTooLowStarting auction.startingBid))
        else if failUpdate then (db, .error .serverError)
        else if failInsert then (db, .error .serverError)
        else (commitBid db now aid bidderId amount,
              .ok (newBidRecord now aid bidderId amount,
                   { id := auction.id, currentBid := amount,
                     highestBidder := some bidderId,
                     bidCount := auction.bidCount + 1 }))

/-- The bid documents referencing a given auction (`Bid.find({auction: aid})`). -/
def bidsOn (db : DB) (aid : Nat) : List Bid :=
  db.bids.filter (fun b => b.auction = aid)

/-- The maximum amount among a list of bids, with a default for the empty
list (the auction's `startingBid` in the consistency invariant). -/
def maxAmount (l : List Bid) (d : ℚ) : ℚ :=
  l.foldl (fun m b => max m b.amount) d

/-- One successful bid-placement transaction, as a step relation on the
persisted state. -/
def BidStep (db db' : DB) : Prop :=
  ∃ now aid bidderId amount bid summ,
    placeBid db now aid bidderId amount = .ok (db', bid, summ)

/-- Reachability by a sequence of successful bid-placement transactions. -/
def BidReachable : DB → DB → Prop :=
  Relation.ReflTransGen BidStep

/-- The denormalized-pointer consistency of one auction document against the
bid log: `bidCount` counts the bids referencing it, `currentBid` is their
maximum amount (defaulting to `startingBid`), `highestBidder` is null with no
bids and otherwise points at the bidder of the strictly maximal bid. -/
def AuctionConsistent (db : DB) (a : Auction) : Prop :=
  a.bidCount = (bidsOn db a.id).length ∧
  a.currentBid = maxAmount (bidsOn db a.id) a.startingBid ∧
  (∀ b ∈ bidsOn db a.id, b.amount ≤ a.currentBid) ∧
  (bidsOn db a.id = [] → a.highestBidder = none) ∧
  (bidsOn db a.id ≠ [] →
    ∃ b ∈ bidsOn db a.id, a.highestBidder = some b.bidder ∧
      b.amount = a.currentBid ∧
      ∀ b' ∈ bidsOn db a.id, b' ≠ b → b'.amount < b.amount)

/-- Whole-database consistency: document ids are unique (Mongo `_id`
semantics) and every auction document is consistent with the bid log. -/
def DBConsistent (db : DB) : Prop :=
  (db.auctions.map (fun a => a.id)).Nodup ∧
  ∀ a ∈ db.auctions, AuctionConsistent db a

/-- The rejection reasons of `updateAuction` in
`controllers/auctionController.js`. -/
inductive UpdateError where
  | notFound
  | notAuthorized
  | cannotUpdateEnded
  | cannotChangeStartingBid
  | endBeforeStart
  | validationError
deriving DecidableEq, Repr

/-- The optional fields an update request body may carry (`req.body` of
`PUT /api/v1/auctions/:id`); `currentBid` is present because the controller
itself writes `req.body.currentBid = req.body.startingBid` before applying the
whitelist. -/
structure UpdateBody where
  title : Option String := none
  description : Option String := none
  imageUrl : Option String := none
  images : Option (List String) := none
  category : Option String := none
  location : Option String := none
  documents : Option (List Document) := none
  startingBid : Option ℚ := none
  startTime : Option Int := none
  endTime : Option Int := none
  currentBid : Option ℚ := none
deriving DecidableEq, Repr

/-- JavaScript's `newEndTime <= newStartTime` on `Date`s: comparisons against
an invalid date (`NaN`) are false. -/
def dateLeDate (e s : Option Int) : Bool :=
  match e, s with
  | some e, some s => e ≤ s
  | _, _ => false

/-- The `Object.keys(req.body).forEach` copy step of `updateAuction`: every
present body field whose key is in `allowedUpdates` overwrites the document
field.  `endTime`/`startTime` are whitelisted only when `allowTimes`,
`startingBid` only when `allowStartingBid`, and `currentBid` is never in
`allowedUpdates`, so a `currentBid` entry in the body is silently dropped. -/
def applyBody (a : Auction) (allowTimes allowStartingBid : Bool)
    (b : UpdateBody) : Auction :=
  { a with
    title := b.title.getD a.title,
    description := b.description.getD a.description,
    imageUrl := match b.imageUrl with | some u => some u | none => a.imageUrl,
    images := b.images.getD a.images,
    category := b.category.getD a.category,
    location := b.location.getD a.location,
    documents := b.documents.getD a.documents,
    startTime := if allowTimes then (b.startTime.map some).getD a.startTime
                 else a.startTime,
    endTime := if allowTimes then (b.endTime.map some).getD a.endTime
               else a.endTime,
    startingBid := if allowStartingBid then b.startingBid.getD a.startingBid
                   else a.startingBid }

/-- The `auction.save()` validation relevant to updates (`models/Auction.js`):
`endTime` must be strictly after `startTime` when both parse, `startingBid`
has `min: 0`, and at least one of `images`/`imageUrl` must be present. -/
def saveValid (a : Auction) : Bool :=
  !(dateLeDate a.endTime a.startTime) && decide (0 ≤ a.startingBid) &&
  (!a.images.isEmpty || a.imageUrl.isSome)

/-- The whitelist-and-save tail of `updateAuction`, applied after the
starting-bid gate: pushes `endTime`/`startTime` onto `allowedUpdates` for an
admin or the seller of an `upcoming` auction (re-validating the time
ordering), pushes `startingBid` additionally only while `bidCount === 0`,
copies the whitelisted body fields onto the document and saves it. -/
def updateApply (auction : Auction) (st : Status) (userId : Nat)
    (isAdmin : Bool) (body : UpdateBody) : Except UpdateError Auction :=
  let allowTimes : Bool :=
    isAdmin || (st == Status.upcoming && auction.seller == userId)
  let allowStartingBid : Bool :=
    isAdmin || (st == Status.upcoming && auction.seller == userId &&
                auction.bidCount == 0)
  if allowTimes &&
      dateLeDate (body.endTime <|> auction.endTime)
        (body.startTime <|> auction.startTime) then
    .error .endBeforeStart
  else
    let a' := applyBody auction allowTimes allowStartingBid body
    if saveValid a' then .ok a' else .error .validationError

/-- Embeds `updateAuction` from `controllers/auctionController.js`: lookup,
seller-or-admin authorization, the ended-auction gate, the starting-bid change
gate (with the controller's `req.body.currentBid = req.body.startingBid`
mutation when `bidCount === 0`), then the whitelisted field copy and save. -/
def updateAuction (db : DB) (now : Int) (aid : Nat) (userId : Nat)
    (isAdmin : Bool) (body : UpdateBody) : Except UpdateError (DB × Auction) :=
  match findAuction db aid with
  | none => .error .notFound
  | some auction =>
    if auction.seller ≠ userId ∧ isAdmin = false then .error .notAuthorized
    else
      let st := statusOf now auction
      if st = Status.ended ∧ isAdmin = false then .error .cannotUpdateEnded
      else
        let gate : Except UpdateError Auction :=
          match body.startingBid with
          | some newSb =>
            if auction.startingBid ≠ newSb then
              if (st = Status.active ∨ st = Status.ended ∨
                    0 < auction.bidCount) ∧ isAdmin = false then
                .error .cannotChangeStartingBid
              else
                let body' := if auction.bidCount = 0 then
                    { body with currentBid := some newSb } else body
                updateApply auction st userId isAdmin body'
            else updateApply auction st userId isAdmin body
          | none => updateApply auction st userId isAdmin body
        match gate with
        | .error e => .error e
        | .ok a' =>
          let auctions' := db.auctions.map (fun a => if a.id = aid then a' else a)
          .ok ({ db with auctions := auctions' }, a')

/-- The rejection reasons of `deleteAuction`. -/
inductive DeleteError where
  | notFound
  | notAuthorized
  | cannotDelete
deriving DecidableEq, Repr

/-- Embeds `deleteAuction` from `controllers/auctionController.js`: lookup,
seller-or-admin authorization, and the business gate blocking a non-admin from
deleting an `active` or `ended` auction with at least one bid; on success the
document is removed (`findByIdAndDelete`; related bids are left in place, that
cleanup being commented out in the source). -/
def deleteAuction (db : DB) (now : Int) (aid : Nat) (userId : Nat)
    (isAdmin : Bool) : DB × Except DeleteError Unit :=
  match findAuction db aid with
  | none => (db, .error .notFound)
  | some auction =>
    if auction.seller ≠ userId ∧ isAdmin = false then
      (db, .error .notAuthorized)
    else
      if (statusOf now auction = Status.active ∨
            statusOf now auction = Status.ended) ∧
          0 < auction.bidCount ∧ isAdmin = false then
        (db, .error .cannotDelete)
      else
        ({ auctions := db.auctions.filter (fun a => a.id ≠ aid),
           bids := db.bids }, .ok ())

/-- The membership flip of `toggleLikeAuction`: `auction.likedBy.some(id =>
id.equals(userId))` decides membership, a member is removed via
`$pull: { likedBy: userId }` (dropping every occurrence) and a non-member is
added via `$addToSet: { likedBy: userId }`. -/
def toggleLike (likedBy : List Nat) (userId : Nat) : List Nat :=
  if userId ∈ likedBy then likedBy.filter (fun v => v ≠ userId)
  else likedBy ++ [userId]

/-- The rejection reason of `toggleLikeAuction`. -/
inductive LikeError where
  | notFound
deriving DecidableEq, Repr

/-- Embeds `toggleLikeAuction` from `controllers/auctionController.js`:
lookup, then the membership-directed `findByIdAndUpdate` with `$pull` or
`$addToSet` on `likedBy`. -/
def toggleLikeAuction (db : DB) (aid : Nat) (userId : Nat) :
    Except LikeError DB :=
  match findAuction db aid with
  | none => .error .notFound
  | some _ =>
    .ok { auctions := db.auctions.map
            (fun a => if a.id = aid then
                { a with likedBy := toggleLike a.likedBy userId } else a),
          bids := db.bids }

/-! ### Concrete fixtures used by the witness theorems -/

/-- An auction with one prior bid: seller 7, `currentBid = 50`, running from
instant 0 to instant 1000000 (so at `now = 100` it is ending-soon). -/
def c2Auction : Auction :=
  { id := 1, title := "item", description := "d", imageUrl := none,
    images := ["img"], startingBid := 50, currentBid := 50,
    highestBidder := some 9, bidCount := 1, views := 0, likedBy := [],
    seller := 7, startTime := some 0, endTime := some 1000000,
    documents := [], category := "c", location := "l" }

/-- A database holding `c2Auction` and its one bid. -/
def c2Db : DB :=
  { auctions := [c2Auction],
    bids := [{ auction := 1, bidder := 9, amount := 50, createdAt := 5 }] }

/-- A freshly created auction: no bids, `currentBid = startingBid = 50`,
seller 7, running from instant 0 to instant 1000000. -/
def freshAuction : Auction :=
  { id := 1, title := "item", description := "d", imageUrl := none,
    images := ["img"], startingBid := 50, currentBid := 50,
    highestBidder := none, bidCount := 0, views := 0, likedBy := [],
    seller := 7, startTime := some 0, endTime := some 1000000,
    documents := [], category := "c", location := "l" }

/-- A database holding only the freshly created `freshAuction`. -/
def freshDb : DB := { auctions := [freshAuction], bids := [] }

/-- An upcoming auction (starts at instant 1000) with no bids, liked by
users 4 and 5. -/
def upcomingAuction : Auction :=
  { id := 1, title := "item", description := "d", imageUrl := none,
    images := ["img"], startingBid := 50, currentBid := 50,
    highestBidder := none, bidCount := 0, views := 0, likedBy := [4, 5],
    seller := 7, startTime := some 1000, endTime := some 2000,
    documents := [], category := "c", location := "l" }

/-- A database holding only `upcomingAuction`. -/
def upcomingDb : DB := { auctions := [upcomingAuction], bids := [] }

/-- An update request that only changes `startingBid` to 80. -/
def sbBody : UpdateBody := { startingBid := some 80 }

/-- The fresh auction after a successful bid of 60 by user 3. -/
def c1Updated : Auction :=
  { freshAuction with currentBid := 60, highestBidder := some 3,
                      bidCount := 1 }

/-! ### Supporting lemmas -/

lemma findAuction_mem {db : DB} {aid : Nat} {a : Auction}
    (h : findAuction db aid = some a) : a ∈ db.auctions ∧ a.id = aid := by
  unfold findAuction at h
  refine ⟨List.mem_of_find?_eq_some h, ?_⟩
  have := List.find?_some h
  simpa using this

lemma find?_id_nodup {l : List Auction}
    (hnd : (l.map (fun a => a.id)).Nodup) {a : Auction} (ha : a ∈ l) :
    l.find? (fun x => x.id = a.id) = some a := by
  induction l with
  | nil => cases ha
  | cons b t ih =>
    rcases List.mem_cons.mp ha with rfl | hat
    · simp [List.find?_cons]
    · have hne : b.id ≠ a.id := by
        intro hco
        have : a.id ∈ t.map (fun x => x.id) := List.mem_map_of_mem _ hat
        rw [List.map_cons, List.nodup_cons] at hnd
        exact hnd.1 (hco ▸ this)
      have ht : (t.map (fun a => a.id)).Nodup := by
        rw [List.map_cons, List.nodup_cons] at hnd
        exact hnd.2
      simp [List.find?_cons, hne, ih ht hat]

lemma findAuction_of_nodup {db : DB}
    (hnd : (db.auctions.map (fun a => a.id)).Nodup) {a : Auction}
    (ha : a ∈ db.auctions) : findAuction db a.id = some a :=
  find?_id_nodup hnd ha

lemma applyBidUpdate_id (amount : ℚ) (bidderId : Nat) (a : Auction) :
    (applyBidUpdate amount bidderId a).id = a.id := rfl

lemma maxAmount_append (l : List Bid) (b : Bid) (d : ℚ) :
    maxAmount (l ++ [b]) d = max (maxAmount l d) b.amount := by
  unfold maxAmount
  rw [List.foldl_append]
  rfl

lemma bidsOn_commit_self (db : DB) (now : Int) (aid : Nat)
    (bidderId : Nat) (amount : ℚ) :
    bidsOn (commitBid db now aid bidderId amount) aid =
      bidsOn db aid ++ [newBidRecord now aid bidderId amount] := by
  unfold bidsOn commitBid
  rw [List.filter_append]
  simp [newBidRecord]

lemma bidsOn_commit_other (db : DB) (now : Int) (aid : Nat)
    (bidderId : Nat) (amount : ℚ) {x : Nat} (hx : x ≠ aid) :
    bidsOn (commitBid db now aid bidderId amount) x = bidsOn db x := by
  unfold bidsOn commitBid
  rw [List.filter_append]
  simp [newBidRecord, Ne.symm hx]

lemma commitBid_ids (db : DB) (now : Int) (aid : Nat)
    (bidderId : Nat) (amount : ℚ) :
    (commitBid db now aid bidderId amount).auctions.map (fun a => a.id) =
      db.auctions.map (fun a => a.id) := by
  unfold commitBid
  rw [List.map_map]
  refine List.map_congr_left ?_
  intro a _
  by_cases h : a.id = aid <;> simp [h, applyBidUpdate]

/-! ### C5: status derivation -/

/-- C5: the status derivation is a pure function of `(now, startTime,
endTime)`; it returns `invalid-dates` when either timestamp failed to parse,
`upcoming` exactly when `now < startTime`, `ended` exactly when
`now ≥ endTime`, and for `startTime ≤ now < endTime` it returns `ending-soon`
when less than one hour remains and `active` otherwise. -/
theorem auction_status_derivation (now s e : Int) (h : s < e) :
    (auctionStatus now none (some e) = Status.invalidDates ∧
     auctionStatus now (some s) none = Status.invalidDates ∧
     auctionStatus now none none = Status.invalidDates) ∧
    (auctionStatus now (some s) (some e) = Status.upcoming ↔ now < s) ∧
    (auctionStatus now (some s) (some e) = Status.ended ↔ e ≤ now) ∧
    (s ≤ now → now < e → e - now < oneHourMs →
      auctionStatus now (some s) (some e) = Status.endingSoon) ∧
    (s ≤ now → now < e → oneHourMs ≤ e - now →
      auctionStatus now (some s) (some e) = Status.active) := by
  refine ⟨⟨rfl, rfl, rfl⟩, ?_, ?_, ?_, ?_⟩ <;>
  · simp only [auctionStatus]
    split_ifs <;> try simp_all
    all_goals omega

/-- Concrete check of C5 at the spec's scenarios: with `startTime` in the
past, an `endTime` 30 minutes away is `ending-soon`, 2 hours away is
`active`; an elapsed `endTime` is `ended` and a future `startTime` is
`upcoming`. -/
theorem auction_status_derivation_witness :
    ((-100 : Int) < 1800000 ∧
      auctionStatus 0 (some (-100)) (some 1800000) = Status.endingSoon) ∧
    ((-100 : Int) < 7200000 ∧
      auctionStatus 0 (some (-100)) (some 7200000) = Status.active) ∧
    ((-100 : Int) < -50 ∧
      auctionStatus 0 (some (-100)) (some (-50)) = Status.ended) ∧
    ((100 : Int) < 200 ∧
      auctionStatus 0 (some 100) (some 200) = Status.upcoming) := by
  refine ⟨⟨by decide, ?_⟩, ⟨by decide, ?_⟩, ⟨by decide, ?_⟩, ⟨by decide, ?_⟩⟩
  · exact (auction_status_derivation 0 (-100) 1800000 (by decide)).2.2.2.1
      (by decide) (by decide) (by decide)
  · exact (auction_status_derivation 0 (-100) 7200000 (by decide)).2.2.2.2
      (by decide) (by decide) (by decide)
  · exact (auction_status_derivation 0 (-100) (-50) (by decide)).2.2.1.mpr
      (by decide)
  · exact (auction_status_derivation 0 100 200 (by decide)).2.1.mpr (by decide)

/-! ### Inversion of a successful bid placement -/

lemma placeBid_ok_elim {db : DB} {now : Int} {aid bidderId : Nat}
    {amount : ℚ} {db' : DB} {bid : Bid} {summ : AuctionSummary}
    (h : placeBid db now aid bidderId amount = .ok (db', bid, summ)) :
    0 < amount ∧
    ∃ auction, findAuction db aid = some auction ∧
      auction.seller ≠ bidderId ∧
      (statusOf now auction = Status.active ∨
        statusOf now auction = Status.endingSoon) ∧
      auction.currentBid < amount ∧
      db' = commitBid db now aid bidderId amount ∧
      bid = newBidRecord now aid bidderId amount ∧
      summ = { id := auction.id, currentBid := amount,
               highestBidder := some bidderId,
               bidCount := auction.bidCount + 1 } := by
  unfold placeBid at h
  split at h
  · simp at h
  next hamt =>
    split at h
    · simp at h
    next auction heq =>
      split at h
      · simp at h
      next hseller =>
        split at h
        · simp at h
        next hstatus =>
          split at h
          · simp at h
          next hcur =>
            split at h
            · simp at h
            next hfirst =>
              have hok := h
              simp only [Except.ok.injEq, Prod.mk.injEq] at hok
              obtain ⟨hdb, hbid, hsumm⟩ := hok
              refine ⟨lt_of_not_le hamt, auction, heq, hseller, ?_,
                lt_of_not_le hcur, hdb.symm, hbid.symm, hsumm.symm⟩
              rcases not_and_or.mp hstatus with hs | hs
              · exact Or.inl (not_not.mp hs)
              · exact Or.inr (not_not.mp hs)

/-! ### C2: precondition order and rejection reasons -/

/-- C2: for a well-formed positive amount, `placeBid` evaluates its
preconditions in the fixed source order, each failure producing its own
rejection: a missing auction is `NotFound`; then a seller bidding on their own
auction is `Forbidden`; then a status other than active/ending-soon is
`InvalidState` carrying that status; then an amount not strictly above
`currentBid` is `BidTooLow` disclosing the current bid; then, on a first bid
(`bidCount = 0`), an amount below `startingBid` is `BidTooLow` disclosing the
starting bid. -/
theorem placeBid_precondition_order (db : DB) (now : Int) (aid bidderId : Nat)
    (amount : ℚ) (hamt : 0 < amount) :
    (findAuction db aid = none →
      placeBid db now aid bidderId amount = .error .notFound) ∧
    (∀ auction, findAuction db aid = some auction →
      (auction.seller = bidderId →
        placeBid db now aid bidderId amount = .error .forbidden) ∧
      (auction.seller ≠ bidderId →
        statusOf now auction ≠ Status.active →
        statusOf now auction ≠ Status.endingSoon →
        placeBid db now aid bidderId amount =
          .error (.invalidState (statusOf now auction))) ∧
      (auction.seller ≠ bidderId →
        (statusOf now auction = Status.active ∨
          statusOf now auction = Status.endingSoon) →
        amount ≤ auction.currentBid →
        placeBid db now aid bidderId amount =
          .error (.bidTooLowCurrent auction.currentBid)) ∧
      (auction.seller ≠ bidderId →
        (statusOf now auction = Status.active ∨
          statusOf now auction = Status.endingSoon) →
        auction.currentBid < amount →
        auction.bidCount = 0 → amount < auction.startingBid →
        placeBid db now aid bidderId amount =
          .error (.bidTooLowStarting auction.startingBid))) := by
  have hnamt : ¬ amount ≤ 0 := not_le.mpr hamt
  constructor
  · intro hfind
    simp [placeBid, hnamt, hfind]
  · intro auction hfind
    have hok : ∀ h1 : statusOf now auction = Status.active ∨
        statusOf now auction = Status.endingSoon,
        ¬ (statusOf now auction ≠ Status.active ∧
           statusOf now auction ≠ Status.endingSoon) := by
      rintro (h1 | h1) ⟨ha, he⟩
      · exact ha h1
      · exact he h1
    refine ⟨?_, ?_, ?_, ?_⟩
    · intro hseller
      simp [placeBid, hnamt, hfind, hseller]
    · intro hseller hsa hse
      simp [placeBid, hnamt, hfind, hseller, hsa, hse]
    · intro hseller hst hcur
      simp [placeBid, hnamt, hfind, hseller, hok hst, hcur]
    · intro hseller hst hcur hcount hsb
      simp [placeBid, hnamt, hfind, hseller, hok hst, not_le.mpr hcur,
            hcount, hsb]

/-- Concrete check of C2: on an auction with `currentBid = 50` and a distinct
seller, a bid of 40 with active status is rejected as too low with the current
bid disclosed. -/
theorem placeBid_precondition_order_witness :
    (0 : ℚ) < 40 ∧
    findAuction c2Db 1 = some c2Auction ∧
    c2Auction.seller ≠ 3 ∧
    (statusOf 100 c2Auction = Status.active ∨
      statusOf 100 c2Auction = Status.endingSoon) ∧
    (40 : ℚ) ≤ c2Auction.currentBid ∧
    placeBid c2Db 100 1 3 40 = .error (.bidTooLowCurrent 50) := by
  refine ⟨by decide, rfl, by decide, Or.inr (by decide), by decide, ?_⟩
  have h := ((placeBid_precondition_order c2Db 100 1 3 40 (by decide)).2
      c2Auction rfl).2.2.1 (by decide) (Or.inr (by decide)) (by decide)
  simpa [c2Auction] using h

/-! ### C3: effect of a successful bid -/

/-- C3: when every precondition passes, `placeBid` inserts exactly one new
bid carrying the given auction, bidder and amount, timestamped now; the
auction document with that id gets `currentBid = amount`,
`highestBidder = bidderId` and `bidCount` incremented by one with every other
field untouched (and every other auction unchanged); and the response carries
the new bid together with the updated summary. -/
theorem placeBid_success_effect (db : DB) (now : Int) (aid bidderId : Nat)
    (amount : ℚ) (auction : Auction) (db' : DB) (bid : Bid)
    (summ : AuctionSummary)
    (hfind : findAuction db aid = some auction)
    (h : placeBid db now aid bidderId amount = .ok (db', bid, summ)) :
    bid = { auction := aid, bidder := bidderId, amount := amount,
            createdAt := now } ∧
    db'.bids = db.bids ++ [bid] ∧
    db'.auctions = db.auctions.map
      (fun a => if a.id = aid then
          { a with currentBid := amount, highestBidder := some bidderId,
                   bidCount := a.bidCount + 1 } else a) ∧
    summ = { id := auction.id, currentBid := amount,
             highestBidder := some bidderId,
             bidCount := auction.bidCount + 1 } := by
  obtain ⟨-, a0, hfind0, -, -, -, hdb, hbid, hsumm⟩ := placeBid_ok_elim h
  have ha0 : a0 = auction := by
    rw [hfind0] at hfind
    exact (Option.some.injEq _ _).mp hfind
  subst ha0
  refine ⟨?_, ?_, ?_, ?_⟩
  · rw [hbid]; rfl
  · rw [hdb, hbid]; rfl
  · rw [hdb]
    unfold commitBid applyBidUpdate
    rfl
  · exact hsumm

/-- Concrete check of C3: a bid of 60 by user 3 on the fresh auction succeeds
and produces exactly the claimed bid record, bid-log append, auction update
and summary. -/
theorem placeBid_success_effect_witness :
    findAuction freshDb 1 = some freshAuction ∧
    placeBid freshDb 100 1 3 60 =
      .ok (commitBid freshDb 100 1 3 60, newBidRecord 100 1 3 60,
           { id := 1, currentBid := 60, highestBidder := some 3,
             bidCount := 1 }) ∧
    newBidRecord 100 1 3 60 =
      { auction := 1, bidder := 3, amount := 60, createdAt := 100 } ∧
    (commitBid freshDb 100 1 3 60).bids =
      freshDb.bids ++ [newBidRecord 100 1 3 60] ∧
    (commitBid freshDb 100 1 3 60).auctions = freshDb.auctions.map
      (fun a => if a.id = 1 then
          { a with currentBid := 60, highestBidder := some 3,
                   bidCount := a.bidCount + 1 } else a) ∧
    { id := freshAuction.id, currentBid := (60 : ℚ),
      highestBidder := some 3, bidCount := freshAuction.bidCount + 1 } =
      ({ id := 1, currentBid := 60, highestBidder := some 3,
         bidCount := 1 } : AuctionSummary) := by
  have h := placeBid_success_effect freshDb 100 1 3 60 freshAuction
    (commitBid freshDb 100 1 3 60) (newBidRecord 100 1 3 60)
    { id := 1, currentBid := 60, highestBidder := some 3, bidCount := 1 }
    rfl rfl
  exact ⟨rfl, rfl, h.1, h.2.1, h.2.2.1, rfl⟩

/-! ### C4: all-or-nothing writes -/

/-- C4: `placeBid` is all-or-nothing.  For every execution of the transaction
— including those where the auction update or the bid insert fails after the
write phase begins — either the database is left exactly as it was and an
error is reported, or both writes (the bid insert and the auction update) are
committed together and the success payload is returned; no execution applies
exactly one of the two writes. -/
theorem placeBid_all_or_nothing (failUpdate failInsert : Bool) (db : DB)
    (now : Int) (aid bidderId : Nat) (amount : ℚ) :
    ((placeBidTx failUpdate failInsert db now aid bidderId amount).1 = db ∧
      ∃ e, (placeBidTx failUpdate failInsert db now aid bidderId amount).2 =
        .error e) ∨
    ((placeBidTx failUpdate failInsert db now aid bidderId amount).1 =
        commitBid db now aid bidderId amount ∧
      ∃ bs, (placeBidTx failUpdate failInsert db now aid bidderId amount).2 =
        .ok bs) := by
  unfold placeBidTx
  split
  · exact Or.inl ⟨rfl, _, rfl⟩
  split
  · exact Or.inl ⟨rfl, _, rfl⟩
  split
  · exact Or.inl ⟨rfl, _, rfl⟩
  split
  · exact Or.inl ⟨rfl, _, rfl⟩
  split
  · exact Or.inl ⟨rfl, _, rfl⟩
  split
  · exact Or.inl ⟨rfl, _, rfl⟩
  split
  · exact Or.inl ⟨rfl, _, rfl⟩
  split
  · exact Or.inl ⟨rfl, _, rfl⟩
  · exact Or.inr ⟨rfl, _, rfl⟩

/-! ### C10: the first-bid branch is unreachable -/

/-- C10: on any auction satisfying the creation invariant
`startingBid ≤ currentBid`, the first-bid rejection branch of `placeBid` can
never be the outcome — any amount that survives the strict `currentBid`
comparison already exceeds `startingBid` — and in particular a first bid
exactly equal to `startingBid` is rejected by the `currentBid` comparison,
with the current bid disclosed. -/
theorem placeBid_first_bid_branch_unreachable (db : DB) (now : Int)
    (aid bidderId : Nat) (amount : ℚ)
    (hinv : ∀ a, findAuction db aid = some a → a.startingBid ≤ a.currentBid) :
    (∀ q, placeBid db now aid bidderId amount ≠
      .error (.bidTooLowStarting q)) ∧
    (∀ a, findAuction db aid = some a →
      a.seller ≠ bidderId →
      (statusOf now a = Status.active ∨ statusOf now a = Status.endingSoon) →
      a.bidCount = 0 → 0 < amount → amount = a.startingBid →
      placeBid db now aid bidderId amount =
        .error (.bidTooLowCurrent a.currentBid)) := by
  constructor
  · intro q hq
    unfold placeBid at hq
    split at hq
    · simp at hq
    split at hq
    · simp at hq
    next a heq =>
      split at hq
      · simp at hq
      split at hq
      · simp at hq
      split at hq
      · simp at hq
      next hcur =>
        split at hq
        next hfirst =>
          exact hcur (le_trans (le_of_lt hfirst.2) (hinv a heq))
        next hfirst => simp at hq
  · intro a hfind hseller hst hcount hpos heq
    have hle : amount ≤ a.currentBid := heq ▸ hinv a hfind
    have hok : ¬(statusOf now a ≠ Status.active ∧
        statusOf now a ≠ Status.endingSoon) := by
      rintro ⟨h1, h2⟩
      rcases hst with h | h
      · exact h1 h
      · exact h2 h
    simp [placeBid, not_le.mpr hpos, hfind, hseller, hok, hle]

/-- Concrete check of C10: the fresh auction has
`startingBid = currentBid = 50`, and a first bid of exactly 50 is rejected by
the current-bid comparison (never by the starting-bid branch). -/
theorem placeBid_first_bid_branch_unreachable_witness :
    (∀ a, findAuction freshDb 1 = some a → a.startingBid ≤ a.currentBid) ∧
    freshAuction.bidCount = 0 ∧ (50 : ℚ) = freshAuction.startingBid ∧
    placeBid freshDb 100 1 3 50 =
      .error (.bidTooLowCurrent freshAuction.currentBid) := by
  have hinv : ∀ a, findAuction freshDb 1 = some a →
      a.startingBid ≤ a.currentBid := by
    intro a ha
    have h2 : (some freshAuction : Option Auction) = some a :=
      (show findAuction freshDb 1 = some freshAuction from rfl).symm.trans ha
    have : a = freshAuction := ((Option.some.injEq _ _).mp h2).symm
    subst this
    decide
  refine ⟨hinv, rfl, rfl, ?_⟩
  exact (placeBid_first_bid_branch_unreachable freshDb 100 1 3 50 hinv).2
    freshAuction rfl (by decide) (Or.inr (by decide)) rfl (by decide) rfl

/-! ### C8: deletion policy -/

/-- C8: with a non-admin actor, `deleteAuction` is rejected with the database
unchanged whenever the auction's derived status is active or ended and it has
at least one bid; deleting an auction with no bids and upcoming status
succeeds for its seller, removing exactly that document. -/
theorem deleteAuction_policy (db : DB) (now : Int) (aid userId : Nat)
    (auction : Auction) (hfind : findAuction db aid = some auction) :
    ((statusOf now auction = Status.active ∨
        statusOf now auction = Status.ended) →
      0 < auction.bidCount →
      (deleteAuction db now aid userId false).1 = db ∧
      ∃ e, (deleteAuction db now aid userId false).2 = .error e) ∧
    (auction.bidCount = 0 → statusOf now auction = Status.upcoming →
      auction.seller = userId →
      (deleteAuction db now aid userId false).1 =
        { auctions := db.auctions.filter (fun a => a.id ≠ aid),
          bids := db.bids } ∧
      (deleteAuction db now aid userId false).2 = .ok ()) := by
  constructor
  · intro hst hbc
    simp only [deleteAuction, hfind]
    split
    · exact ⟨rfl, _, rfl⟩
    split
    · exact ⟨rfl, _, rfl⟩
    next hcond => exact absurd ⟨hst, hbc, trivial⟩ hcond
  · intro hbc hst hauth
    simp only [deleteAuction, hfind]
    split
    · next hcond => exact absurd hauth hcond.1
    split
    · next hcond =>
      have := hcond.2.1
      rw [hbc] at this
      exact absurd this (lt_irrefl 0)
    · exact ⟨rfl, rfl⟩

/-- Concrete check of C8: user 7 (the seller) deletes the upcoming bid-free
auction and the document is removed; on the ending-soon/active auction with a
bid (`c2Auction` at `now = 100`), the non-admin delete is rejected
unchanged. -/
theorem deleteAuction_policy_witness :
    findAuction upcomingDb 1 = some upcomingAuction ∧
    upcomingAuction.bidCount = 0 ∧
    statusOf 0 upcomingAuction = Status.upcoming ∧
    upcomingAuction.seller = 7 ∧
    (deleteAuction upcomingDb 0 1 7 false).1 =
      { auctions := [], bids := [] } ∧
    (deleteAuction upcomingDb 0 1 7 false).2 = .ok () := by
  have h := (deleteAuction_policy upcomingDb 0 1 7 upcomingAuction rfl).2
    rfl (by decide) rfl
  exact ⟨rfl, rfl, by decide, rfl, h.1, h.2⟩

/-! ### C9: like toggling -/

lemma toggleLike_mem_self (l : List Nat) (u : Nat) :
    u ∈ toggleLike l u ↔ u ∉ l := by
  unfold toggleLike
  by_cases h : u ∈ l
  · simp [h, List.mem_filter]
  · simp [h]

lemma toggleLike_mem_other (l : List Nat) (u v : Nat) (hv : v ≠ u) :
    v ∈ toggleLike l u ↔ v ∈ l := by
  unfold toggleLike
  by_cases h : u ∈ l <;> simp [h, List.mem_filter, hv]

lemma toggleLike_twice_mem (l : List Nat) (u v : Nat) :
    v ∈ toggleLike (toggleLike l u) u ↔ v ∈ l := by
  by_cases hv : v = u
  · subst hv
    rw [toggleLike_mem_self, toggleLike_mem_self, not_not]
  · rw [toggleLike_mem_other _ _ _ hv, toggleLike_mem_other _ _ _ hv]

lemma find?_map_update (l : List Auction) (aid : Nat) (g : Auction → Auction)
    (hg : ∀ a, (g a).id = a.id) :
    (l.map (fun a => if a.id = aid then g a else a)).find?
        (fun a => a.id = aid) =
      (l.find? (fun a => a.id = aid)).map g := by
  induction l with
  | nil => rfl
  | cons b t ih =>
    by_cases hb : b.id = aid
    · simp [List.find?_cons, hb, hg]
    · simp [List.find?_cons, hb, hg, ih]

/-- C9: `toggleLikeAuction` on an existing auction succeeds and flips exactly
the calling user's membership in that auction's `likedBy` set: the caller's
membership is inverted, every other user's membership is untouched, and
toggling twice restores the original set. -/
theorem toggleLikeAuction_flips_membership (db : DB) (aid userId : Nat)
    (a : Auction) (hfind : findAuction db aid = some a) :
    toggleLikeAuction db aid userId =
      .ok { auctions := db.auctions.map
              (fun x => if x.id = aid then
                  { x with likedBy := toggleLike x.likedBy userId } else x),
            bids := db.bids } ∧
    (∀ db', toggleLikeAuction db aid userId = .ok db' →
      findAuction db' aid =
        some { a with likedBy := toggleLike a.likedBy userId }) ∧
    (userId ∈ toggleLike a.likedBy userId ↔ userId ∉ a.likedBy) ∧
    (∀ v, v ≠ userId →
      (v ∈ toggleLike a.likedBy userId ↔ v ∈ a.likedBy)) ∧
    (∀ v, v ∈ toggleLike (toggleLike a.likedBy userId) userId ↔
      v ∈ a.likedBy) := by
  refine ⟨by simp only [toggleLikeAuction, hfind], ?_,
    toggleLike_mem_self _ _, fun v hv => toggleLike_mem_other _ _ _ hv,
    fun v => toggleLike_twice_mem _ _ _⟩
  intro db' hdb'
  simp only [toggleLikeAuction, hfind, Except.ok.injEq] at hdb'
  subst hdb'
  show (db.auctions.map _).find? _ = _
  rw [find?_map_update db.auctions aid
    (fun x => { x with likedBy := toggleLike x.likedBy userId })
    (fun _ => rfl)]
  unfold findAuction at hfind
  rw [hfind]
  rfl

/-- Concrete check of C9: toggling user 4 on the upcoming auction (liked by 4
and 5) removes 4, leaves 5, and a second toggle restores the set. -/
theorem toggleLikeAuction_flips_membership_witness :
    findAuction upcomingDb 1 = some upcomingAuction ∧
    toggleLikeAuction upcomingDb 1 4 =
      .ok { auctions := [{ upcomingAuction with likedBy := [5] }],
            bids := [] } ∧
    (4 ∈ toggleLike upcomingAuction.likedBy 4 ↔ 4 ∉ upcomingAuction.likedBy) ∧
    (5 ∈ toggleLike upcomingAuction.likedBy 4 ↔ 5 ∈ upcomingAuction.likedBy) ∧
    (∀ v, v ∈ toggleLike (toggleLike upcomingAuction.likedBy 4) 4 ↔
      v ∈ upcomingAuction.likedBy) := by
  have h := toggleLikeAuction_flips_membership upcomingDb 1 4
    upcomingAuction rfl
  exact ⟨rfl, by rfl, h.2.2.1, h.2.2.2.1 5 (by decide), h.2.2.2.2⟩

/-! ### C7: starting-bid update does not reset currentBid (source defect) -/

/-- C7 (counterexample to the reset clause): the seller changes `startingBid`
from 50 to 80 on their upcoming, bid-free auction; `updateAuction` accepts
the change but leaves `currentBid` at 50 instead of resetting it to 80 — the
controller writes `req.body.currentBid = req.body.startingBid`, yet
`currentBid` is never in the `allowedUpdates` whitelist, so the reset is
silently dropped (even breaking `currentBid ≥ startingBid`). -/
theorem updateAuction_drops_currentBid_reset :
    statusOf 0 upcomingAuction = Status.upcoming ∧
    upcomingAuction.bidCount = 0 ∧
    upcomingAuction.seller = 7 ∧
    upcomingAuction.startingBid = 50 ∧ upcomingAuction.currentBid = 50 ∧
    updateAuction upcomingDb 0 1 7 false sbBody =
      .ok ({ auctions := [{ upcomingAuction with startingBid := 80 }],
             bids := [] },
           { upcomingAuction with startingBid := 80 }) ∧
    ({ upcomingAuction with startingBid := 80 }).startingBid = 80 ∧
    ({ upcomingAuction with startingBid := 80 }).currentBid = 50 := by
  exact ⟨by decide, rfl, rfl, rfl, rfl, by rfl, rfl, rfl⟩

/-! ### C1: the denormalized bid pointers stay consistent with the bid log -/

lemma commitBid_consistent {db : DB} (hdb : DBConsistent db) {now : Int}
    {aid bidderId : Nat} {amount : ℚ} {auction : Auction}
    (hfind : findAuction db aid = some auction)
    (hcur : auction.currentBid < amount) :
    DBConsistent (commitBid db now aid bidderId amount) := by
  obtain ⟨hnd, hall⟩ := hdb
  refine ⟨by rw [commitBid_ids]; exact hnd, ?_⟩
  intro a' ha'
  obtain ⟨a, ha, hfa⟩ := List.mem_map.mp ha'
  by_cases hcase : a.id = aid
  · have haeq : a = auction := by
      have h1 := findAuction_of_nodup hnd ha
      rw [hcase, hfind] at h1
      exact ((Option.some.injEq _ _).mp h1).symm
    subst haeq
    rw [if_pos hcase] at hfa
    subst hfa
    obtain ⟨hc1, hc2, hc3, hc4, hc5⟩ := hall a ha
    rw [hcase] at hc1 hc2 hc3 hc4 hc5
    have hid' : (applyBidUpdate amount bidderId a).id = aid := by
      rw [applyBidUpdate_id]; exact hcase
    unfold AuctionConsistent
    rw [hid', bidsOn_commit_self]
    refine ⟨?_, ?_, ?_, ?_, ?_⟩
    · show a.bidCount + 1 = _
      rw [List.length_append, hc1]
      rfl
    · show amount = maxAmount _ a.startingBid
      rw [maxAmount_append, ← hc2]
      exact (max_eq_right (le_of_lt hcur)).symm
    · intro b hb
      rcases List.mem_append.mp hb with hbl | hbr
      · exact le_trans (hc3 b hbl) (le_of_lt hcur)
      · rw [List.mem_singleton.mp hbr]
        exact le_refl _
    · intro habs
      exact absurd habs (by simp)
    · intro _
      refine ⟨newBidRecord now aid bidderId amount,
        List.mem_append_right _ (List.mem_singleton_self _), rfl, rfl, ?_⟩
      intro b' hb' hne
      rcases List.mem_append.mp hb' with hbl | hbr
      · exact lt_of_le_of_lt (hc3 b' hbl) hcur
      · exact absurd (List.mem_singleton.mp hbr) hne
  · rw [if_neg hcase] at hfa
    subst hfa
    obtain ⟨hc1, hc2, hc3, hc4, hc5⟩ := hall a ha
    unfold AuctionConsistent
    rw [bidsOn_commit_other db now aid bidderId amount hcase]
    exact ⟨hc1, hc2, hc3, hc4, hc5⟩

lemma bidStep_consistent {db db' : DB} (hdb : DBConsistent db)
    (hstep : BidStep db db') : DBConsistent db' := by
  obtain ⟨now, aid, bidderId, amount, bid, summ, h⟩ := hstep
  obtain ⟨-, auction, hfind, -, -, hcur, hdb', -, -⟩ := placeBid_ok_elim h
  subst hdb'
  exact commitBid_consistent hdb hfind hcur

lemma bidReachable_consistent {db0 db : DB} (h0 : DBConsistent db0)
    (h : BidReachable db0 db) : DBConsistent db := by
  induction h with
  | refl => exact h0
  | tail _ hs ih => exact bidStep_consistent ih hs

lemma initial_consistent {db : DB}
    (hnd : (db.auctions.map (fun a => a.id)).Nodup)
    (hbids : db.bids = [])
    (hinit : ∀ a ∈ db.auctions,
      a.currentBid = a.startingBid ∧ a.bidCount = 0 ∧
      a.highestBidder = none) :
    DBConsistent db := by
  refine ⟨hnd, ?_⟩
  intro a ha
  obtain ⟨h1, h2, h3⟩ := hinit a ha
  have hb : bidsOn db a.id = [] := by
    unfold bidsOn
    rw [hbids]
    rfl
  unfold AuctionConsistent
  rw [hb]
  refine ⟨by rw [h2]; rfl, by rw [h1]; rfl, ?_, fun _ => h3, ?_⟩
  · intro b hb'
    exact absurd hb' (List.not_mem_nil b)
  · intro habs
    exact absurd rfl habs

/-- C1: starting from creation states (no bids, `currentBid = startingBid`,
`bidCount = 0`, unique document ids), after any sequence of successful
bid-placement transactions every auction's `bidCount` equals the number of
bids referencing it, its `currentBid` equals the maximum bid amount
(defaulting to `startingBid` with no bids), and with at least one bid its
`highestBidder` is the bidder of the strictly maximal bid. -/
theorem auction_bid_log_invariant (db0 db : DB)
    (hnd : (db0.auctions.map (fun a => a.id)).Nodup)
    (hbids : db0.bids = [])
    (hinit : ∀ a ∈ db0.auctions,
      a.currentBid = a.startingBid ∧ a.bidCount = 0 ∧
      a.highestBidder = none)
    (hreach : BidReachable db0 db)
    (a : Auction) (ha : a ∈ db.auctions) :
    a.bidCount = (bidsOn db a.id).length ∧
    a.currentBid = maxAmount (bidsOn db a.id) a.startingBid ∧
    (bidsOn db a.id ≠ [] →
      ∃ b ∈ bidsOn db a.id, a.highestBidder = some b.bidder ∧
        b.amount = a.currentBid ∧
        ∀ b' ∈ bidsOn db a.id, b' ≠ b → b'.amount < b.amount) := by
  obtain ⟨-, hall⟩ :=
    bidReachable_consistent (initial_consistent hnd hbids hinit) hreach
  obtain ⟨h1, h2, h3, h4, h5⟩ := hall a ha
  exact ⟨h1, h2, h5⟩

/-- Concrete check of C1: one successful bid of 60 by user 3 on the fresh
auction reaches a state where the updated document counts one bid, carries
`currentBid = 60`, and points `highestBidder` at user 3's maximal bid. -/
theorem auction_bid_log_invariant_witness :
    (freshDb.auctions.map (fun a => a.id)).Nodup ∧
    freshDb.bids = [] ∧
    c1Updated ∈ (commitBid freshDb 100 1 3 60).auctions ∧
    (c1Updated.bidCount =
      (bidsOn (commitBid freshDb 100 1 3 60) c1Updated.id).length ∧
     c1Updated.currentBid =
      maxAmount (bidsOn (commitBid freshDb 100 1 3 60) c1Updated.id)
        c1Updated.startingBid ∧
     (bidsOn (commitBid freshDb 100 1 3 60) c1Updated.id ≠ [] →
      ∃ b ∈ bidsOn (commitBid freshDb 100 1 3 60) c1Updated.id,
        c1Updated.highestBidder = some b.bidder ∧
        b.amount = c1Updated.currentBid ∧
        ∀ b' ∈ bidsOn (commitBid freshDb 100 1 3 60) c1Updated.id,
          b' ≠ b → b'.amount < b.amount)) := by
  refine ⟨by decide, rfl, by decide, ?_⟩
  exact auction_bid_log_invariant freshDb (commitBid freshDb 100 1 3 60)
    (by decide) rfl (by decide)
    (Relation.ReflTransGen.single ⟨100, 1, 3, 60, _, _, rfl⟩)
    c1Updated (by decide)

end LiveAuction
